import Mathlib

/-!
# Verification of the Schema/Validator library (`schema.js`)

A shallow embedding of the repository's validation engine: `ValidationResult`,
the validator variants (String, Number, Boolean, Date, Array, Object, Union,
Literal, Any) with their configuration state, `BaseValidator.validate` /
`_formatError`, and the variant-specific `_validate` implementations.

Modelling conventions:
* JavaScript numbers are exact rationals plus the special values `NaN`,
  `Infinity` and `-Infinity` (`JSNum`).
* Input values form the JSON-like universe `JSVal`
  (null / undefined / boolean / number / string / array / object).  Arrays and
  objects carry a `ref : Nat` modelling JavaScript heap identity: two composite
  values are `===` exactly when their refs coincide.  Every other operation
  ignores the ref.  `Date` instances as *inputs* are outside this universe.
* User-supplied transform functions are modelled as `JSVal → Except String JSVal`;
  `.error msg` models the function throwing an error whose `message` is `msg`.
* Host-environment functions that are not part of the repository
  (`Date` string parsing, `toISOString`) are modelled by explicitly marked
  stand-ins; no claim below depends on their exact behaviour.
-/

/-- JavaScript numbers: finite doubles are modelled as exact rationals,
plus `NaN`, `Infinity` and `-Infinity`. -/
inductive JSNum where
  | nan
  | inf
  | neginf
  | fin (q : ℚ)
deriving DecidableEq, Repr

/-- JavaScript `<` on numbers: any comparison involving `NaN` is false. -/
def jsLt : JSNum → JSNum → Bool
  | .fin a, .fin b => decide (a < b)
  | .fin _, .inf => true
  | .neginf, .fin _ => true
  | .neginf, .inf => true
  | _, _ => false

/-- JavaScript `>` on numbers. -/
def jsGt (a b : JSNum) : Bool := jsLt b a

/-- JavaScript `===` on numbers: `NaN` is not equal to anything, itself included. -/
def jsNumEq : JSNum → JSNum → Bool
  | .fin a, .fin b => decide (a = b)
  | .inf, .inf => true
  | .neginf, .neginf => true
  | _, _ => false

/-- JavaScript `<=` on numbers. -/
def jsLe (a b : JSNum) : Bool := jsLt a b || jsNumEq a b

/-- `Number.isInteger`. -/
def jsIsInteger : JSNum → Bool
  | .fin q => decide (q.den = 1)
  | _ => false

/-- JavaScript values: the JSON-like universe the validators operate on.
`ref` on arrays and objects models heap identity (used only by `===`). -/
inductive JSVal where
  | null
  | undefined
  | bool (b : Bool)
  | num (n : JSNum)
  | str (s : String)
  | arr (ref : Nat) (elems : List JSVal)
  | obj (ref : Nat) (fields : List (String × JSVal))

/-- Is this value `undefined`? -/
def JSVal.isUndefined : JSVal → Bool
  | .undefined => true
  | _ => false

/-- JavaScript strict equality `===`: primitives by value (with `NaN !== NaN`),
arrays and objects by reference identity. -/
def jsStrictEq : JSVal → JSVal → Bool
  | .null, .null => true
  | .undefined, .undefined => true
  | .bool a, .bool b => a == b
  | .num a, .num b => jsNumEq a b
  | .str a, .str b => a == b
  | .arr r1 _, .arr r2 _ => r1 == r2
  | .obj r1 _, .obj r2 _ => r1 == r2
  | _, _ => false

/-- JavaScript number-to-string conversion, as used in template literals.
Integral values print without a decimal part; the non-integral rendering is a
stand-in (no claim exercises it). -/
def numToString (n : JSNum) : String :=
  match n with
  | .nan => "NaN"
  | .inf => "Infinity"
  | .neginf => "-Infinity"
  | .fin q => if q.den = 1 then toString q.num else toString q

def hexDigitChar (n : Nat) : Char :=
  if n < 10 then Char.ofNat (48 + n) else Char.ofNat (87 + n)

/-- JSON string escaping for one character. -/
def escapeJSONChar (c : Char) : String :=
  if c = '"' then "\\\""
  else if c = '\\' then "\\\\"
  else if c = '\n' then "\\n"
  else if c = '\r' then "\\r"
  else if c = '\t' then "\\t"
  else if c = '\x08' then "\\b"
  else if c = '\x0c' then "\\f"
  else if c.toNat < 32 then
    "\\u00" ++ String.singleton (hexDigitChar (c.toNat / 16)) ++
      String.singleton (hexDigitChar (c.toNat % 16))
  else String.singleton c

def quoteJSON (s : String) : String :=
  "\"" ++ String.join (s.toList.map escapeJSONChar) ++ "\""

mutual
/-- `JSON.stringify` of a value in serialisable position: `undefined`, `NaN`
and `±Infinity` render as `null` inside arrays; `undefined`-valued object
members are dropped. -/
def stringifyVal : JSVal → String
  | .null => "null"
  | .undefined => "null"
  | .bool b => if b then "true" else "false"
  | .num n =>
      match n with
      | .fin q => numToString (.fin q)
      | _ => "null"
  | .str s => quoteJSON s
  | .arr _ elems => "[" ++ String.intercalate "," (stringifyElems elems) ++ "]"
  | .obj _ fields => "\x7b" ++ String.intercalate "," (stringifyMembers fields) ++ "\x7d"

def stringifyElems : List JSVal → List String
  | [] => []
  | v :: vs => stringifyVal v :: stringifyElems vs

def stringifyMembers : List (String × JSVal) → List String
  | [] => []
  | (_, .undefined) :: rest => stringifyMembers rest
  | (k, v) :: rest => (quoteJSON k ++ ":" ++ stringifyVal v) :: stringifyMembers rest
end

/-- Top-level `JSON.stringify`: `undefined` (and only it, in this universe)
serialises to no string at all. -/
def jsonStringify : JSVal → Option String
  | .undefined => none
  | v => some (stringifyVal v)

/-- The result of a validation operation (`class ValidationResult`). -/
structure ValidationResult where
  isValid : Bool
  errors : List String
  value : JSVal

/-- `ValidationResult.success(value)`. -/
def ValidationResult.success (value : JSVal) : ValidationResult :=
  ⟨true, [], value⟩

/-- `ValidationResult.failure(errors, value = null)`.  All call sites in the
source pass either a single message (wrapped into a one-element array) or an
already-built array, and leave `value` at its default `null`; the list and the
value are passed explicitly here. -/
def ValidationResult.failure (errors : List String) (value : JSVal) : ValidationResult :=
  ⟨false, errors, value⟩

/-- State shared by every validator (`BaseValidator`'s constructor). -/
structure BaseCfg where
  isOptionalField : Bool
  customMessage : Option String
  transformFn : Option (JSVal → Except String JSVal)

/-- `StringValidator` state. -/
structure StrCfg where
  minLen : Option JSNum
  maxLen : Option JSNum
  patternRegex : Option (String → Bool)
  enumValues : Option (List String)

/-- `NumberValidator` state. -/
structure NumCfg where
  minVal : Option JSNum
  maxVal : Option JSNum
  isIntegerOnly : Bool
  isPositiveOnly : Bool

/-- `DateValidator` state (`minDate` / `maxDate` as time values; a `NaN` time
is an Invalid Date object, which is still truthy). -/
structure DateCfg where
  minDate : Option JSNum
  maxDate : Option JSNum

/-- `ArrayValidator` state (besides the item validator). -/
structure ArrCfg where
  minItems : Option JSNum
  maxItems : Option JSNum
  uniqueItems : Bool

/-- `ObjectValidator` state (besides the schema). -/
structure ObjCfg where
  allowUnknownKeys : Bool
  requiredKeys : List String

/-- The closed family of validator variants, each carrying its configuration
(the spec's tagged-variant reading of the subclass hierarchy). -/
inductive Validator where
  | string (cfg : StrCfg) (base : BaseCfg)
  | number (cfg : NumCfg) (base : BaseCfg)
  | boolean (base : BaseCfg)
  | date (cfg : DateCfg) (base : BaseCfg)
  | array (itemValidator : Validator) (cfg : ArrCfg) (base : BaseCfg)
  | object (schema : List (String × Validator)) (cfg : ObjCfg) (base : BaseCfg)
  | union (validators : List Validator) (base : BaseCfg)
  | literal (expected : JSVal) (base : BaseCfg)
  | any (base : BaseCfg)

/-- The `BaseValidator` fields of any variant. -/
def Validator.base : Validator → BaseCfg
  | .string _ b => b
  | .number _ b => b
  | .boolean b => b
  | .date _ b => b
  | .array _ _ b => b
  | .object _ _ b => b
  | .union _ b => b
  | .literal _ b => b
  | .any b => b

/-- `BaseValidator._formatError(message, path)`: the custom message wins
outright when set (and non-empty — `||` tests truthiness); otherwise the
default message gets the `" at <path>"` location suffix for non-empty paths. -/
def formatError (base : BaseCfg) (message : String) (path : String) : String :=
  let location := if path = "" then "" else " at " ++ path
  match base.customMessage with
  | some m => if m = "" then message ++ location else m
  | none => message ++ location

/-- `value === undefined || value === null`. -/
def isNullOrUndefined : JSVal → Bool
  | .null => true
  | .undefined => true
  | _ => false

/-- `value[key]` on an object: the bound value, or `undefined` when the key is
absent.  (Prototype-chain lookups play no role on these plain data objects.) -/
def jsIndex (fields : List (String × JSVal)) (key : String) : JSVal :=
  match fields.find? (fun kv => kv.1 == key) with
  | some kv => kv.2
  | none => .undefined

/-- `key in value`: key presence (a key bound to `undefined` still counts). -/
def hasKey (fields : List (String × JSVal)) (key : String) : Bool :=
  (fields.find? (fun kv => kv.1 == key)).isSome

/-- `key in this.schema` / `this.schema[key]` on the schema record. -/
def schemaLookup (schema : List (String × Validator)) (key : String) : Option Validator :=
  match schema.find? (fun kv => kv.1 == key) with
  | some kv => some kv.2
  | none => none

/-- The characters the regex class `\s` matches (the ASCII ones; no claim
involves the Unicode space characters). -/
def isJSWhitespace (c : Char) : Bool :=
  c == ' ' || c == '\t' || c == '\n' || c == '\r' || c == '\x0b' || c == '\x0c'

/-- The test of the email pattern `^[^\s@]+@[^\s@]+\.[^\s@]+$` installed by
`StringValidator.email()`: exactly one `@`; a non-empty whitespace-free local
part; and a whitespace-free domain part containing a `.` that is neither its
first nor its last character. -/
def emailRegexTest (s : String) : Bool :=
  match s.toList.splitOn '@' with
  | [lp, dom] =>
      !lp.isEmpty && lp.all (fun c => !isJSWhitespace c) &&
      !dom.isEmpty && dom.all (fun c => !isJSWhitespace c) &&
      ((dom.drop 1).dropLast.contains '.')
  | _ => false

/-- The test of the URL pattern `^https?:\/\/.+` installed by
`StringValidator.url()`: an `http://` or `https://` prefix followed by at
least one non-line-terminator character. -/
def urlRegexTest (s : String) : Bool :=
  let rest :=
    if s.toList.take 8 == "https://".toList then some (s.toList.drop 8)
    else if s.toList.take 7 == "http://".toList then some (s.toList.drop 7)
    else none
  match rest with
  | some (c :: _) => !(c == '\n' || c == '\r')
  | _ => false

/-- The uniqueness pass of `ArrayValidator._validate`: walk the items in index
order with a set of already-seen serialisations, flagging the index of every
item whose `JSON.stringify` image was seen before. -/
def findDups (seen : List (Option String)) (idx : Nat) : List JSVal → List Nat
  | [] => []
  | item :: rest =>
      let s := jsonStringify item
      if seen.contains s then idx :: findDups seen (idx + 1) rest
      else findDups (s :: seen) (idx + 1) rest

/-- The item path `path[index]` (or `[index]` when the path is empty). -/
def itemPath (path : String) (idx : Nat) : String :=
  if path = "" then "[" ++ toString idx ++ "]"
  else path ++ "[" ++ toString idx ++ "]"

/-- The field path `path.key` (or `key` when the path is empty). -/
def fieldPath (path key : String) : String :=
  if path = "" then key else path ++ "." ++ key

/-- The `errors.length > 0 ? ValidationResult.failure(errors) :
ValidationResult.success(value)` ending shared by the collecting
`_validate` implementations. -/
def collectResult (errors : List String) (okValue : JSVal) : ValidationResult :=
  if errors.isEmpty then .success okValue else .failure errors .null

/-- `StringValidator._validate`. -/
def stringValidate (cfg : StrCfg) (base : BaseCfg) (value : JSVal) (path : String) :
    ValidationResult :=
  match value with
  | .str s =>
      let errors :=
        (match cfg.minLen with
          | some m =>
              if jsLt (.fin (s.length : ℚ)) m then
                [formatError base ("Must be at least " ++ numToString m ++ " characters long") path]
              else []
          | none => []) ++
        (match cfg.maxLen with
          | some m =>
              if jsGt (.fin (s.length : ℚ)) m then
                [formatError base ("Must be at most " ++ numToString m ++ " characters long") path]
              else []
          | none => []) ++
        (match cfg.patternRegex with
          | some re =>
              if !(re s) then [formatError base "Does not match required pattern" path] else []
          | none => []) ++
        (match cfg.enumValues with
          | some vs =>
              if !(vs.contains s) then
                [formatError base ("Must be one of: " ++ String.intercalate ", " vs) path]
              else []
          | none => [])
      collectResult errors (.str s)
  | _ => .failure [formatError base "Must be a string" path] .null

/-- `NumberValidator._validate`: the fast-fail guard is
`typeof value !== 'number' || isNaN(value)` — non-number values and `NaN`
only; `±Infinity` passes it and reaches the constraint checks. -/
def numberValidate (cfg : NumCfg) (base : BaseCfg) (value : JSVal) (path : String) :
    ValidationResult :=
  match value with
  | .num n =>
      if n = .nan then .failure [formatError base "Must be a valid number" path] .null
      else
        let errors :=
          (match cfg.minVal with
            | some m =>
                if jsLt n m then [formatError base ("Must be at least " ++ numToString m) path]
                else []
            | none => []) ++
          (match cfg.maxVal with
            | some m =>
                if jsGt n m then [formatError base ("Must be at most " ++ numToString m) path]
                else []
            | none => []) ++
          (if cfg.isIntegerOnly && !(jsIsInteger n) then
            [formatError base "Must be an integer" path] else []) ++
          (if cfg.isPositiveOnly && jsLe n (.fin 0) then
            [formatError base "Must be positive" path] else [])
        collectResult errors (.num n)
  | _ => .failure [formatError base "Must be a valid number" path] .null

/-- `BooleanValidator._validate`. -/
def booleanValidate (base : BaseCfg) (value : JSVal) (path : String) : ValidationResult :=
  match value with
  | .bool b => .success (.bool b)
  | _ => .failure [formatError base "Must be a boolean" path] .null

/-- Host `new Date(number)`: time values beyond ±8.64e15 yield an Invalid
Date (a `NaN` time), as do non-finite inputs. -/
def dateFromNumber (n : JSNum) : JSNum :=
  match n with
  | .fin q =>
      if q ≤ 8640000000000000 ∧ -8640000000000000 ≤ q then .fin q else .nan
  | _ => .nan

/-- Modelled from the host environment: JavaScript `new Date(string)` parsing.
The parse grammar is host-defined and outside this repository; it is modelled
as rejecting every string (an Invalid Date).  No claim depends on which
strings parse — the same code path is exercised by numeric inputs. -/
def jsDateParse (_ : String) : JSNum := .nan

/-- Modelled from the host environment: `Date.prototype.toISOString` of a
valid date, rendered from its time value.  Only reached with non-`NaN` times;
no claim depends on the exact rendering. -/
def toISOStringModel (t : JSNum) : String := "Date(" ++ numToString t ++ ")"

/-- `DateValidator._validate`.  `Date` objects as inputs are outside the
modelled value universe; string and numeric timestamps convert as in the
source, every other type is rejected.  A successful result's value is the
normalised date, represented by its time value. -/
def dateValidate (cfg : DateCfg) (base : BaseCfg) (value : JSVal) (path : String) :
    ValidationResult :=
  let dateOpt : Option JSNum :=
    match value with
    | .str s => some (jsDateParse s)
    | .num n => some (dateFromNumber n)
    | _ => none
  match dateOpt with
  | none => .failure [formatError base "Must be a valid date" path] .null
  | some t =>
      if t = .nan then .failure [formatError base "Must be a valid date" path] .null
      else
        let errors :=
          (match cfg.minDate with
            | some m =>
                if jsLt t m then
                  [formatError base ("Date must be after " ++ toISOStringModel m) path]
                else []
            | none => []) ++
          (match cfg.maxDate with
            | some m =>
                if jsGt t m then
                  [formatError base ("Date must be before " ++ toISOStringModel m) path]
                else []
            | none => [])
        collectResult errors (.num t)

/-- The serialisation of the captured literal value inside
`Must be exactly: ${JSON.stringify(value)}` (an `undefined` serialisation
renders as the string `undefined` in the template). -/
def stringifyExpected (expected : JSVal) : String :=
  match jsonStringify expected with
  | some s => s
  | none => "undefined"

/-- The `_validate` of the anonymous validator returned by
`Schema.literal(value)`: strict equality against the captured value. -/
def literalValidate (expected : JSVal) (base : BaseCfg) (value : JSVal) (path : String) :
    ValidationResult :=
  if !(jsStrictEq value expected) then
    .failure [formatError base ("Must be exactly: " ++ stringifyExpected expected) path] .null
  else .success value

/-- The transform step of `BaseValidator.validate`: when validation passed and
a transform is registered, replace the value by the transform's output, or
catch the thrown error and turn it into a failure Result. -/
def applyTransform (base : BaseCfg) (result : ValidationResult) (path : String) :
    ValidationResult :=
  if result.isValid then
    match base.transformFn with
    | some f =>
        match f result.value with
        | .ok v => { result with value := v }
        | .error msg =>
            .failure [formatError base ("Transformation failed: " ++ msg) path] .null
    | none => result
  else result

/-- The null/optional gate and transform step of `BaseValidator.validate`,
around the already-computed `_validate` result. -/
def wrapValidate (base : BaseCfg) (value : JSVal) (path : String)
    (innerResult : ValidationResult) : ValidationResult :=
  if isNullOrUndefined value then
    if base.isOptionalField then .success value
    else .failure [formatError base "Field is required" path] .null
  else applyTransform base innerResult path

/-- The structural part of `ArrayValidator._validate`: length constraints, the
uniqueness pass, and the assembly of the final Result from the per-item
errors and successfully validated items. -/
def arrayCollect (cfg : ArrCfg) (base : BaseCfg) (ref : Nat) (elems : List JSVal)
    (path : String) (itemErrors : List String) (validatedItems : List JSVal) :
    ValidationResult :=
  let lengthErrors :=
    (match cfg.minItems with
      | some m =>
          if jsLt (.fin (elems.length : ℚ)) m then
            [formatError base ("Must have at least " ++ numToString m ++ " items") path]
          else []
      | none => []) ++
    (match cfg.maxItems with
      | some m =>
          if jsGt (.fin (elems.length : ℚ)) m then
            [formatError base ("Must have at most " ++ numToString m ++ " items") path]
          else []
      | none => [])
  let dupErrors :=
    if cfg.uniqueItems then
      let dups := findDups [] 0 elems
      if dups.isEmpty then []
      else
        [formatError base
          ("Duplicate items found at indices: " ++
            String.intercalate ", " (dups.map toString)) path]
    else []
  collectResult (lengthErrors ++ dupErrors ++ itemErrors) (.arr ref validatedItems)

/-- The structural part of `ObjectValidator._validate`: required keys, unknown
keys (errors in strict mode, passthrough copies otherwise) and the assembly of
the output record — schema-produced fields first, passthrough fields after,
both in their traversal order. -/
def objectCollect (schema : List (String × Validator)) (cfg : ObjCfg) (base : BaseCfg)
    (ref : Nat) (fields : List (String × JSVal)) (path : String)
    (fieldErrors : List String) (validatedFields : List (String × JSVal)) :
    ValidationResult :=
  let requiredErrors := cfg.requiredKeys.filterMap fun k =>
    if hasKey fields k then none
    else some (formatError base ("Missing required field: " ++ k) path)
  let unknownErrors := fields.filterMap fun kv =>
    if (schemaLookup schema kv.1).isSome then none
    else if cfg.allowUnknownKeys then none
    else some (formatError base ("Unknown field: " ++ kv.1) path)
  let passthroughFields :=
    if cfg.allowUnknownKeys then
      fields.filter (fun kv => (schemaLookup schema kv.1).isNone)
    else []
  collectResult (requiredErrors ++ fieldErrors ++ unknownErrors)
    (.obj ref (validatedFields ++ passthroughFields))

/-- The ending of `UnionValidator._validate`: the first successful candidate
Result unmodified, or one failure headed by the union message followed by
every candidate's errors. -/
def unionCollect (base : BaseCfg) (path : String) (res : Option ValidationResult)
    (errs : List String) : ValidationResult :=
  match res with
  | some r => r
  | none =>
      .failure (formatError base "Value does not match any of the expected types" path :: errs)
        .null

mutual
/-- The variant dispatch of `_validate(value, path)`.  Children are invoked
through the full `validate` contract, written here as
`wrapValidate … (validateInner …)` so that the recursion is structural in the
validator. -/
def validateInner (v : Validator) (value : JSVal) (path : String) : ValidationResult :=
  match v with
  | .string cfg base => stringValidate cfg base value path
  | .number cfg base => numberValidate cfg base value path
  | .boolean base => booleanValidate base value path
  | .date cfg base => dateValidate cfg base value path
  | .array itemValidator cfg base =>
      match value with
      | .arr ref elems =>
          let results := elems.enum.map fun p =>
            wrapValidate itemValidator.base p.2 (itemPath path p.1)
              (validateInner itemValidator p.2 (itemPath path p.1))
          let itemErrors := (results.map fun r => if r.isValid then [] else r.errors).flatten
          let validatedItems := results.filterMap fun r =>
            if r.isValid then some r.value else none
          arrayCollect cfg base ref elems path itemErrors validatedItems
      | _ => .failure [formatError base "Must be an array" path] .null
  | .object schema cfg base =>
      match value with
      | .obj ref fields =>
          let p := validateFields schema fields path
          objectCollect schema cfg base ref fields path p.1 p.2
      | _ => .failure [formatError base "Must be an object" path] .null
  | .union validators base =>
      let p := validateCands validators value path
      unionCollect base path p.1 p.2
  | .literal expected base => literalValidate expected base value path
  | .any _ => .success value

/-- The schema-field loop of `ObjectValidator._validate`: validate each
declared field at path `path.key`, collecting errors of failing fields and the
values of succeeding, non-`undefined` fields, in declaration order. -/
def validateFields (schema : List (String × Validator)) (fields : List (String × JSVal))
    (path : String) : List String × List (String × JSVal) :=
  match schema with
  | [] => ([], [])
  | (key, fv) :: rest =>
      let r := wrapValidate fv.base (jsIndex fields key) (fieldPath path key)
        (validateInner fv (jsIndex fields key) (fieldPath path key))
      let p := validateFields rest fields path
      (if r.isValid then p.1 else r.errors ++ p.1,
       if r.isValid && !r.value.isUndefined then (key, r.value) :: p.2 else p.2)

/-- The candidate loop of `UnionValidator._validate`: try each candidate via
its full `validate(value, path)`, stopping at the first valid Result and
otherwise accumulating every candidate's errors in order. -/
def validateCands (validators : List Validator) (value : JSVal) (path : String) :
    Option ValidationResult × List String :=
  match validators with
  | [] => (none, [])
  | c :: cs =>
      let r := wrapValidate c.base value path (validateInner c value path)
      if r.isValid then (some r, [])
      else
        let p := validateCands cs value path
        (p.1, r.errors ++ p.2)
end

/-- `BaseValidator.validate(value, path = '')`: the optional/required gate on
null/undefined, the variant `_validate`, then the transform step. -/
def validate (v : Validator) (value : JSVal) (path : String) : ValidationResult :=
  wrapValidate v.base value path (validateInner v value path)

/-- `BaseValidator.withMessage(message)`, acting on the shared state. -/
def BaseCfg.withMessage (base : BaseCfg) (message : String) : BaseCfg :=
  { base with customMessage := some message }

/-- `BaseValidator.optional()`. -/
def BaseCfg.optional (base : BaseCfg) : BaseCfg :=
  { base with isOptionalField := true }

/-- `BaseValidator.transform(fn)`. -/
def BaseCfg.transform (base : BaseCfg) (fn : JSVal → Except String JSVal) : BaseCfg :=
  { base with transformFn := some fn }

namespace StringValidator

/-- `StringValidator.minLength(min)`. -/
def minLength (cfg : StrCfg) (min : JSNum) : StrCfg :=
  { cfg with minLen := some min }

/-- `StringValidator.maxLength(max)`. -/
def maxLength (cfg : StrCfg) (max : JSNum) : StrCfg :=
  { cfg with maxLen := some max }

/-- `StringValidator.email()`: installs the email pattern and the custom
message "Must be a valid email address" via `withMessage`. -/
def email (cfg : StrCfg) (base : BaseCfg) : StrCfg × BaseCfg :=
  ({ cfg with patternRegex := some emailRegexTest },
   base.withMessage "Must be a valid email address")

/-- `StringValidator.url()`: installs the URL pattern and the custom message
"Must be a valid URL" via `withMessage`. -/
def url (cfg : StrCfg) (base : BaseCfg) : StrCfg × BaseCfg :=
  ({ cfg with patternRegex := some urlRegexTest },
   base.withMessage "Must be a valid URL")

end StringValidator

/-- `ArrayValidator.unique()`. -/
def ArrCfg.unique (cfg : ArrCfg) : ArrCfg :=
  { cfg with uniqueItems := true }

namespace Schema

/-- Fresh `BaseValidator` state, as set up by its constructor. -/
def freshBase : BaseCfg := ⟨false, none, none⟩

/-- `Schema.string()`. -/
def string : Validator := .string ⟨none, none, none, none⟩ freshBase

/-- `Schema.number()`. -/
def number : Validator := .number ⟨none, none, false, false⟩ freshBase

/-- `Schema.boolean()`. -/
def boolean : Validator := .boolean freshBase

/-- `Schema.date()`. -/
def date : Validator := .date ⟨none, none⟩ freshBase

/-- `Schema.object(schema)`. -/
def object (schema : List (String × Validator)) : Validator :=
  .object schema ⟨false, []⟩ freshBase

/-- `Schema.array(itemValidator)`. -/
def array (itemValidator : Validator) : Validator :=
  .array itemValidator ⟨none, none, false⟩ freshBase

/-- `Schema.union(...validators)`. -/
def union (validators : List Validator) : Validator :=
  .union validators freshBase

/-- `Schema.literal(value)`. -/
def literal (value : JSVal) : Validator :=
  .literal value freshBase

/-- `Schema.any()`. -/
def any : Validator := .any freshBase

end Schema

/-!
## Stateful execution relation

`validate` above is a pure function of the validator's configuration.  To
state that a `validate()` call never mutates that configuration (and hence
that re-running it yields an identical Result), the call is also modelled
operationally: `VStep v value path r v'` holds when a run of
`BaseValidator.validate` on receiver state `v` can produce the Result `r`
leaving the receiver in state `v'`.  The receiver state is threaded through
every child call exactly as the JavaScript heap would be: the array item
validator sequentially through the item loop, each schema field validator
through its field's call, and each union candidate through its attempt.  The
source contains no assignment to validator fields on these paths, so each
rule rebuilds its validator only from the threaded children.
-/

mutual
/-- One run of `BaseValidator.validate(value, path)` from receiver state `v`,
producing `r` and final receiver state `v'`. -/
inductive VStep : Validator → JSVal → String → ValidationResult → Validator → Prop where
  | nullOptional : ∀ v value path, isNullOrUndefined value = true →
      (Validator.base v).isOptionalField = true →
      VStep v value path (.success value) v
  | nullRequired : ∀ v value path, isNullOrUndefined value = true →
      (Validator.base v).isOptionalField = false →
      VStep v value path (.failure [formatError (Validator.base v) "Field is required" path] .null) v
  | run : ∀ v value path r v', isNullOrUndefined value = false →
      VInner v value path r v' →
      VStep v value path (applyTransform (Validator.base v') r path) v'

/-- One run of the variant `_validate(value, path)`. -/
inductive VInner : Validator → JSVal → String → ValidationResult → Validator → Prop where
  | str : ∀ cfg base value path,
      VInner (.string cfg base) value path (stringValidate cfg base value path) (.string cfg base)
  | num : ∀ cfg base value path,
      VInner (.number cfg base) value path (numberValidate cfg base value path) (.number cfg base)
  | bool : ∀ base value path,
      VInner (.boolean base) value path (booleanValidate base value path) (.boolean base)
  | date : ∀ cfg base value path,
      VInner (.date cfg base) value path (dateValidate cfg base value path) (.date cfg base)
  | lit : ∀ expected base value path,
      VInner (.literal expected base) value path (literalValidate expected base value path)
        (.literal expected base)
  | anyV : ∀ base value path,
      VInner (.any base) value path (.success value) (.any base)
  | arr : ∀ itemV cfg base ref elems path errs vals itemV',
      ItemsR itemV elems path 0 errs vals itemV' →
      VInner (.array itemV cfg base) (.arr ref elems) path
        (arrayCollect cfg base ref elems path errs vals) (.array itemV' cfg base)
  | arrMismatch : ∀ itemV cfg base value path,
      (∀ ref elems, value ≠ .arr ref elems) →
      VInner (.array itemV cfg base) value path
        (.failure [formatError base "Must be an array" path] .null) (.array itemV cfg base)
  | objFields : ∀ schema cfg base ref fields path errs out schema',
      FieldsR schema fields path errs out schema' →
      VInner (.object schema cfg base) (.obj ref fields) path
        (objectCollect schema' cfg base ref fields path errs out) (.object schema' cfg base)
  | objMismatch : ∀ schema cfg base value path,
      (∀ ref fields, value ≠ .obj ref fields) →
      VInner (.object schema cfg base) value path
        (.failure [formatError base "Must be an object" path] .null) (.object schema cfg base)
  | unionCase : ∀ validators base value path res errs validators',
      CandsR validators value path res errs validators' →
      VInner (.union validators base) value path (unionCollect base path res errs)
        (.union validators' base)

/-- The item loop of `ArrayValidator._validate`, threading the item validator
state from one iteration to the next. -/
inductive ItemsR : Validator → List JSVal → String → Nat → List String → List JSVal →
    Validator → Prop where
  | nil : ∀ itemV path idx, ItemsR itemV [] path idx [] [] itemV
  | cons : ∀ itemV e rest path idx r itemV' errs vals itemV'',
      VStep itemV e (itemPath path idx) r itemV' →
      ItemsR itemV' rest path (idx + 1) errs vals itemV'' →
      ItemsR itemV (e :: rest) path idx
        (if r.isValid then errs else r.errors ++ errs)
        (if r.isValid then r.value :: vals else vals) itemV''

/-- The schema-field loop of `ObjectValidator._validate`, threading each
field's validator state through its call. -/
inductive FieldsR : List (String × Validator) → List (String × JSVal) → String →
    List String → List (String × JSVal) → List (String × Validator) → Prop where
  | nil : ∀ fields path, FieldsR [] fields path [] [] []
  | cons : ∀ key fv rest fields path r fv' errs out rest',
      VStep fv (jsIndex fields key) (fieldPath path key) r fv' →
      FieldsR rest fields path errs out rest' →
      FieldsR ((key, fv) :: rest) fields path
        (if r.isValid then errs else r.errors ++ errs)
        (if r.isValid && !r.value.isUndefined then (key, r.value) :: out else out)
        ((key, fv') :: rest')

/-- The candidate loop of `UnionValidator._validate`, threading each
candidate's state through its attempt and stopping at the first success. -/
inductive CandsR : List Validator → JSVal → String → Option ValidationResult →
    List String → List Validator → Prop where
  | nil : ∀ value path, CandsR [] value path none [] []
  | consOk : ∀ c cs value path r c', VStep c value path r c' → r.isValid = true →
      CandsR (c :: cs) value path (some r) [] (c' :: cs)
  | consFail : ∀ c cs value path r c' res errs cs', VStep c value path r c' →
      r.isValid = false → CandsR cs value path res errs cs' →
      CandsR (c :: cs) value path res (r.errors ++ errs) (c' :: cs')
end

/-!
## The Result invariant (claim C1 machinery)
-/

theorem validate_eq_wrap (c : Validator) (value : JSVal) (path : String) :
    wrapValidate c.base value path (validateInner c value path) = validate c value path := rfl

theorem collectResult_inv (errors : List String) (v : JSVal) :
    (collectResult errors v).isValid = (collectResult errors v).errors.isEmpty := by
  unfold collectResult
  split
  · rfl
  · rename_i h
    simp only [Bool.not_eq_true] at h
    simp [ValidationResult.failure, h]

theorem stringValidate_inv (cfg : StrCfg) (base : BaseCfg) (value : JSVal) (path : String) :
    (stringValidate cfg base value path).isValid =
      (stringValidate cfg base value path).errors.isEmpty := by
  unfold stringValidate
  cases value <;> simp [ValidationResult.failure, collectResult_inv]

theorem numberValidate_inv (cfg : NumCfg) (base : BaseCfg) (value : JSVal) (path : String) :
    (numberValidate cfg base value path).isValid =
      (numberValidate cfg base value path).errors.isEmpty := by
  unfold numberValidate
  cases value <;> simp [ValidationResult.failure, collectResult_inv]
  rename_i n
  split <;> simp [ValidationResult.failure, collectResult_inv]

theorem booleanValidate_inv (base : BaseCfg) (value : JSVal) (path : String) :
    (booleanValidate base value path).isValid =
      (booleanValidate base value path).errors.isEmpty := by
  unfold booleanValidate
  cases value <;> simp [ValidationResult.failure, ValidationResult.success]

theorem dateValidate_inv (cfg : DateCfg) (base : BaseCfg) (value : JSVal) (path : String) :
    (dateValidate cfg base value path).isValid =
      (dateValidate cfg base value path).errors.isEmpty := by
  unfold dateValidate
  cases value <;>
    simp [ValidationResult.failure, collectResult_inv] <;>
    (try split) <;>
    simp [ValidationResult.failure, collectResult_inv]

theorem literalValidate_inv (expected : JSVal) (base : BaseCfg) (value : JSVal) (path : String) :
    (literalValidate expected base value path).isValid =
      (literalValidate expected base value path).errors.isEmpty := by
  unfold literalValidate
  split <;> simp [ValidationResult.failure, ValidationResult.success]

theorem applyTransform_inv (base : BaseCfg) (r : ValidationResult) (path : String)
    (h : r.isValid = r.errors.isEmpty) :
    (applyTransform base r path).isValid = (applyTransform base r path).errors.isEmpty := by
  unfold applyTransform
  split
  · match hf : base.transformFn with
    | none => exact h
    | some f =>
      match he : f r.value with
      | .ok v => simpa [he] using h
      | .error msg => simp [he, ValidationResult.failure]
  · exact h

theorem wrapValidate_inv (base : BaseCfg) (value : JSVal) (path : String)
    (r : ValidationResult) (h : r.isValid = r.errors.isEmpty) :
    (wrapValidate base value path r).isValid = (wrapValidate base value path r).errors.isEmpty := by
  unfold wrapValidate
  split
  · split <;> simp [ValidationResult.failure, ValidationResult.success]
  · exact applyTransform_inv base r path h

theorem validateCands_some (validators : List Validator) (value : JSVal) (path : String)
    (r : ValidationResult) (h : (validateCands validators value path).1 = some r) :
    ∃ c ∈ validators, r = validate c value path ∧ r.isValid = true := by
  induction validators with
  | nil => simp [validateCands] at h
  | cons c cs ih =>
    rw [validateCands] at h
    by_cases hv : (wrapValidate c.base value path (validateInner c value path)).isValid
    · simp [hv] at h
      exact ⟨c, by simp, by rw [← h, validate_eq_wrap], by rw [← h]; exact hv⟩
    · simp [hv] at h
      obtain ⟨c', hc', hr, hv'⟩ := ih h
      exact ⟨c', by simp [hc'], hr, hv'⟩

theorem arrayCollect_inv (cfg : ArrCfg) (base : BaseCfg) (ref : Nat) (elems : List JSVal)
    (path : String) (itemErrors : List String) (validatedItems : List JSVal) :
    (arrayCollect cfg base ref elems path itemErrors validatedItems).isValid =
      (arrayCollect cfg base ref elems path itemErrors validatedItems).errors.isEmpty := by
  unfold arrayCollect
  exact collectResult_inv _ _

theorem objectCollect_inv (schema : List (String × Validator)) (cfg : ObjCfg) (base : BaseCfg)
    (ref : Nat) (fields : List (String × JSVal)) (path : String)
    (fieldErrors : List String) (validatedFields : List (String × JSVal)) :
    (objectCollect schema cfg base ref fields path fieldErrors validatedFields).isValid =
      (objectCollect schema cfg base ref fields path fieldErrors validatedFields).errors.isEmpty := by
  unfold objectCollect
  exact collectResult_inv _ _

theorem validateInner_inv (v : Validator) (value : JSVal) (path : String)
    (IH : ∀ c, sizeOf c < sizeOf v → ∀ (value' : JSVal) (path' : String),
      (validate c value' path').isValid = (validate c value' path').errors.isEmpty) :
    (validateInner v value path).isValid = (validateInner v value path).errors.isEmpty := by
  cases v with
  | string cfg base => exact stringValidate_inv cfg base value path
  | number cfg base => exact numberValidate_inv cfg base value path
  | boolean base => exact booleanValidate_inv base value path
  | date cfg base => exact dateValidate_inv cfg base value path
  | literal expected base => exact literalValidate_inv expected base value path
  | any base => rfl
  | array itemV cfg base =>
    cases value <;> simp [validateInner, ValidationResult.failure, arrayCollect_inv]
  | object schema cfg base =>
    cases value <;> simp [validateInner, ValidationResult.failure, objectCollect_inv]
  | union validators base =>
    rcases hp : validateCands validators value path with ⟨res, errs⟩
    cases res with
    | none => simp [validateInner, hp, unionCollect, ValidationResult.failure]
    | some r =>
      have hsome : (validateCands validators value path).1 = some r := by rw [hp]
      obtain ⟨c, hc, hr, _⟩ := validateCands_some validators value path r hsome
      have hsz : sizeOf c < sizeOf (Validator.union validators base) := by
        have := List.sizeOf_lt_of_mem hc
        simp only [Validator.union.sizeOf_spec]
        omega
      have hinv := IH c hsz value path
      simp only [validateInner, hp, unionCollect]
      rw [hr]
      exact hinv

theorem validate_inv (v : Validator) (value : JSVal) (path : String) :
    (validate v value path).isValid = (validate v value path).errors.isEmpty := by
  suffices H : ∀ n v, sizeOf v ≤ n → ∀ (value : JSVal) (path : String),
      (validate v value path).isValid = (validate v value path).errors.isEmpty from
    H (sizeOf v) v le_rfl value path
  intro n
  induction n with
  | zero =>
    intro v h
    exact absurd h (by cases v <;> simp_arith)
  | succ n ih =>
    intro v h value path
    rw [← validate_eq_wrap]
    apply wrapValidate_inv
    apply validateInner_inv
    intro c hc value' path'
    exact ih c (by omega) value' path'

/-- C1: for every validator of any variant, however configured, and every
input value and path, the Result of `validate` has `isValid` true exactly when
its error list is empty (`isValid === (errors.length === 0)`). -/
theorem c1_isValid_iff_no_errors (v : Validator) (value : JSVal) (path : String) :
    (validate v value path).isValid = ((validate v value path).errors.length == 0) := by
  rw [validate_inv v value path]
  cases (validate v value path).errors <;> simp

/-!
## Union semantics (claim C3)
-/

theorem validateCands_first_success (value : JSVal) (path : String) :
    ∀ (pre : List Validator) (c : Validator) (post : List Validator),
      (∀ c' ∈ pre, (validate c' value path).isValid = false) →
      (validate c value path).isValid = true →
      validateCands (pre ++ c :: post) value path =
        (some (validate c value path),
         (pre.map fun c' => (validate c' value path).errors).flatten) := by
  intro pre
  induction pre with
  | nil =>
    intro c post _ hOk
    rw [List.nil_append, validateCands, validate_eq_wrap, hOk]
    simp
  | cons p rest ih =>
    intro c post hPre hOk
    rw [List.cons_append, validateCands, validate_eq_wrap]
    have hp : (validate p value path).isValid = false := hPre p (by simp)
    rw [hp]
    simp only [Bool.false_eq_true, if_false]
    rw [ih c post (fun c' hc' => hPre c' (by simp [hc'])) hOk]
    simp

theorem validateCands_all_fail (value : JSVal) (path : String) :
    ∀ validators : List Validator,
      (∀ c ∈ validators, (validate c value path).isValid = false) →
      validateCands validators value path =
        (none, (validators.map fun c => (validate c value path).errors).flatten) := by
  intro validators
  induction validators with
  | nil => intro _; simp [validateCands]
  | cons c cs ih =>
    intro hAll
    rw [validateCands, validate_eq_wrap]
    have hc : (validate c value path).isValid = false := hAll c (by simp)
    rw [hc]
    simp only [Bool.false_eq_true, if_false]
    rw [ih (fun c' hc' => hAll c' (by simp [hc']))]
    simp

/-- C3: a Union validator tries its candidates in declared order through their
full `validate(value, path)`; the first candidate Result with `isValid = true`
is returned unmodified, and when no candidate succeeds `_validate` returns one
failure Result whose error list starts with the union message (formatted per
`_formatError`) followed by every candidate's errors, in candidate order. -/
theorem c3_union_first_match_or_all_errors (validators : List Validator) (base : BaseCfg)
    (value : JSVal) (path : String) :
    (∀ pre c post, validators = pre ++ c :: post →
        (∀ c' ∈ pre, (validate c' value path).isValid = false) →
        (validate c value path).isValid = true →
        validateInner (.union validators base) value path = validate c value path) ∧
    ((∀ c ∈ validators, (validate c value path).isValid = false) →
        validateInner (.union validators base) value path =
          .failure
            (formatError base "Value does not match any of the expected types" path ::
              (validators.map fun c => (validate c value path).errors).flatten) .null) := by
  constructor
  · intro pre c post hEq hPre hOk
    subst hEq
    simp [validateInner, validateCands_first_success value path pre c post hPre hOk, unionCollect]
  · intro hAll
    simp [validateInner, validateCands_all_fail value path validators hAll, unionCollect]

/-- Witness for C3 at the spec's scenario 5:
`Schema.union(Schema.string(), Schema.number()).validate(true)`. -/
theorem c3_union_witness :
    (∀ c ∈ [Schema.string, Schema.number], (validate c (.bool true) "").isValid = false) ∧
    validateInner (.union [Schema.string, Schema.number] Schema.freshBase) (.bool true) "" =
      .failure ["Value does not match any of the expected types", "Must be a string",
        "Must be a valid number"] .null := by
  have hAll : ∀ c ∈ [Schema.string, Schema.number], (validate c (.bool true) "").isValid = false := by
    intro c hc
    simp only [List.mem_cons, List.not_mem_nil, or_false] at hc
    rcases hc with h | h <;> (rw [h]; rfl)
  refine ⟨hAll, ?_⟩
  have h := (c3_union_first_match_or_all_errors [Schema.string, Schema.number]
    Schema.freshBase (.bool true) "").2 hAll
  rw [h]
  rfl

/-!
## Transform error handling (claim C2)
-/

/-- C2: when a registered transform function throws on the validated value of
an otherwise-valid result, `validate` returns (rather than propagates) a
failure Result whose single error is "Transformation failed: " followed by the
thrown error's message, formatted per `_formatError`.  (`validate` is a total
function into `ValidationResult`, so the exception never reaches its caller.) -/
theorem c2_transform_failure_caught (v : Validator) (value : JSVal) (path : String)
    (f : JSVal → Except String JSVal) (msg : String)
    (hnn : isNullOrUndefined value = false)
    (hf : v.base.transformFn = some f)
    (hv : (validateInner v value path).isValid = true)
    (he : f (validateInner v value path).value = .error msg) :
    validate v value path =
      .failure [formatError v.base ("Transformation failed: " ++ msg) path] .null := by
  rw [← validate_eq_wrap]
  unfold wrapValidate
  rw [hnn]
  simp [applyTransform, hv, hf, he]

/-- Witness for C2: a string validator whose transform always throws "boom". -/
theorem c2_transform_witness :
    validate (.string ⟨none, none, none, none⟩ ⟨false, none, some fun _ => .error "boom"⟩)
      (.str "hi") "" =
      .failure ["Transformation failed: boom"] .null :=
  c2_transform_failure_caught
    (.string ⟨none, none, none, none⟩ ⟨false, none, some fun _ => .error "boom"⟩)
    (.str "hi") "" (fun _ => .error "boom") "boom" rfl rfl rfl rfl

/-!
## Number fast-fail guard (claim C4)
-/

/-- C4 (amended): `NumberValidator._validate` fails fast with the single error
"Must be a valid number" exactly for values that are not of number type or are
`NaN`; `±Infinity` is number-typed and non-`NaN`, so it passes the guard and
the constraint checks do run on it. -/
theorem c4_number_type_or_nan_fails_fast (cfg : NumCfg) (base : BaseCfg) (value : JSVal)
    (path : String) (h : ∀ n : JSNum, value = .num n → n = .nan) :
    numberValidate cfg base value path =
      .failure [formatError base "Must be a valid number" path] .null := by
  cases value with
  | num n =>
    have hn := h n rfl
    subst hn
    rfl
  | null => rfl
  | undefined => rfl
  | bool b => rfl
  | str s => rfl
  | arr r es => rfl
  | obj r fs => rfl

/-- Witness for C4 (amended) at the non-number input `"x"`. -/
theorem c4_number_guard_witness :
    numberValidate ⟨none, none, false, false⟩ ⟨false, none, none⟩ (.str "x") "" =
      .failure ["Must be a valid number"] .null :=
  c4_number_type_or_nan_fails_fast ⟨none, none, false, false⟩ ⟨false, none, none⟩
    (.str "x") "" (fun _ h => nomatch h)

/-- C4 counterexample: `Infinity` is not a finite number, yet
`NumberValidator._validate` does not fail fast on it — an unconstrained number
validator accepts it outright, and with `max(5)` the constraint checks run and
report "Must be at most 5" instead of "Must be a valid number". -/
theorem c4_infinity_cex :
    (numberValidate ⟨none, none, false, false⟩ ⟨false, none, none⟩ (.num .inf) "").isValid = true ∧
    numberValidate ⟨none, some (.fin 5), false, false⟩ ⟨false, none, none⟩ (.num .inf) "" =
      .failure ["Must be at most 5"] .null :=
  ⟨rfl, rfl⟩

/-!
## Nested email error text (claim C5)
-/

/-- C5 counterexample: validating `{user: {email: "bad"}}` against
`Schema.object({user: Schema.object({email: Schema.string().email()})})` does
yield an invalid Result, but its single error is the custom message installed
by `email()`, which contains no `"at user.email"` substring — `_formatError`
returns a set custom message verbatim, dropping the location suffix. -/
theorem c5_no_nested_path_cex :
    (validate
      (Schema.object [("user", Schema.object [("email",
        .string (StringValidator.email ⟨none, none, none, none⟩ Schema.freshBase).1
          (StringValidator.email ⟨none, none, none, none⟩ Schema.freshBase).2)])])
      (.obj 0 [("user", .obj 1 [("email", .str "bad")])]) "").errors =
      ["Must be a valid email address"] ∧
    ¬ List.IsInfix ("at user.email".toList) ("Must be a valid email address".toList) :=
  ⟨rfl, by decide⟩

/-- C5 (amended): the nested-email scenario returns an invalid Result whose
single error is exactly "Must be a valid email address": `email()` installs a
custom message, and a custom message replaces the located default message, so
the dotted field path is not rendered. -/
theorem c5_nested_email_scenario :
    validate
      (Schema.object [("user", Schema.object [("email",
        .string (StringValidator.email ⟨none, none, none, none⟩ Schema.freshBase).1
          (StringValidator.email ⟨none, none, none, none⟩ Schema.freshBase).2)])])
      (.obj 0 [("user", .obj 1 [("email", .str "bad")])]) "" =
      .failure ["Must be a valid email address"] .null := rfl

/-!
## minLength scenario (claim C7)
-/

/-- C7: `Schema.string().minLength(3).validate("hi")` returns exactly
`{isValid: false, errors: ["Must be at least 3 characters long"], value: null}`
— one error without location suffix, and a `null` Result value. -/
theorem c7_minLength_scenario :
    validate
      (.string (StringValidator.minLength ⟨none, none, none, none⟩ (.fin 3)) Schema.freshBase)
      (.str "hi") "" =
      .failure ["Must be at least 3 characters long"] .null := rfl

/-!
## Literal strict equality (claim C9)
-/

/-- C9 (amended): `Schema.literal(expected)`'s `_validate` succeeds exactly
when the value is `===`-equal to the captured expected value — same primitive
type and value (`NaN` matching nothing), and *reference identity* for
composite values — and otherwise fails with
"Must be exactly: " + `JSON.stringify(expected)` per `_formatError`. -/
theorem c9_literal_strict_equality (expected : JSVal) (base : BaseCfg) (value : JSVal)
    (path : String) :
    ((literalValidate expected base value path).isValid = jsStrictEq value expected) ∧
    (jsStrictEq value expected = false →
      literalValidate expected base value path =
        .failure [formatError base ("Must be exactly: " ++ stringifyExpected expected) path]
          .null) := by
  unfold literalValidate
  cases h : jsStrictEq value expected <;>
    simp [h, ValidationResult.success, ValidationResult.failure]

/-- Witness for C9 (amended) at a mismatching primitive. -/
theorem c9_literal_witness :
    jsStrictEq (.num (.fin 1)) (.str "a") = false ∧
    literalValidate (.str "a") ⟨false, none, none⟩ (.num (.fin 1)) "" =
      .failure ["Must be exactly: \"a\""] .null :=
  ⟨rfl,
    (c9_literal_strict_equality (.str "a") ⟨false, none, none⟩ (.num (.fin 1)) "").2 rfl⟩

/-- C9 counterexample: two empty arrays are structurally equal (their
canonical serialisations coincide), yet `Schema.literal([]).validate` of a
distinct empty array literal fails — `!==` compares composites by reference,
not structurally. -/
theorem c9_structural_equality_cex :
    stringifyVal (.arr 1 []) = stringifyVal (.arr 0 []) ∧
    validate (Schema.literal (.arr 0 [])) (.arr 1 []) "" =
      .failure ["Must be exactly: []"] .null :=
  ⟨rfl, rfl⟩

/-!
## Array uniqueness (claim C6)
-/

theorem findDups_nil_not_contains :
    ∀ (xs : List JSVal) (seen : List (Option String)) (idx : Nat),
      findDups seen idx xs = [] → ∀ a ∈ xs, seen.contains (jsonStringify a) = false := by
  intro xs
  induction xs with
  | nil => intro seen idx _ a ha; cases ha
  | cons x rest ih =>
    intro seen idx h a ha
    rw [findDups] at h
    split at h
    · simp at h
    · rename_i hc
      rcases List.mem_cons.mp ha with rfl | hrest
      · simpa using hc
      · have := ih _ _ h a hrest
        rw [List.contains_cons] at this
        simp only [Bool.or_eq_false_iff] at this
        exact this.2

theorem findDups_nil_pairwise :
    ∀ (xs : List JSVal) (seen : List (Option String)) (idx : Nat),
      findDups seen idx xs = [] →
      xs.Pairwise (fun a b => jsonStringify a ≠ jsonStringify b) := by
  intro xs
  induction xs with
  | nil => intro _ _ _; exact List.Pairwise.nil
  | cons x rest ih =>
    intro seen idx h
    rw [findDups] at h
    split at h
    · simp at h
    · refine List.Pairwise.cons ?_ (ih _ _ h)
      intro b hb heq
      have hnc := findDups_nil_not_contains rest _ _ h b hb
      rw [List.contains_cons] at hnc
      simp [heq] at hnc

theorem applyTransform_of_failure (base : BaseCfg) (r : ValidationResult) (path : String)
    (h : r.isValid = false) : applyTransform base r path = r := by
  unfold applyTransform
  rw [h]
  simp

theorem wrapValidate_not_null (base : BaseCfg) (value : JSVal) (path : String)
    (r : ValidationResult) (h : isNullOrUndefined value = false) :
    wrapValidate base value path r = applyTransform base r path := by
  unfold wrapValidate
  rw [h]
  simp

theorem collectResult_mid (A I : List String) (m : String) (v : JSVal) :
    ∃ pre, collectResult (A ++ [m] ++ I) v = .failure (pre ++ m :: I) .null :=
  ⟨A, by rw [collectResult]; simp⟩

theorem arrayCollect_duplicates (cfg : ArrCfg) (base : BaseCfg) (ref : Nat)
    (elems : List JSVal) (path : String) (itemErrors : List String)
    (validatedItems : List JSVal)
    (hu : cfg.uniqueItems = true) (hd : findDups [] 0 elems ≠ []) :
    ∃ pre, arrayCollect cfg base ref elems path itemErrors validatedItems =
      .failure (pre ++
        formatError base
          ("Duplicate items found at indices: " ++
            String.intercalate ", " ((findDups [] 0 elems).map toString)) path ::
        itemErrors) .null := by
  have hde : (findDups [] 0 elems).isEmpty = false := by
    cases hfd : findDups [] 0 elems with
    | nil => exact absurd hfd hd
    | cons a l => rfl
  unfold arrayCollect
  rw [hu]
  simp only [if_true, hde, Bool.false_eq_true, if_false]
  exact collectResult_mid _ _ _ _

/-- C6: for every Array validator with `unique()` enabled, an input array
containing an element whose canonical serialisation already occurred at a
lower index yields `isValid = false`, and the error list carries exactly one
uniqueness error — placed between the structural errors and the per-item
errors — naming every duplicate index; concretely,
`Schema.array(Schema.string()).unique().validate(["a","b","a"])` returns
`{isValid: false, errors: ["Duplicate items found at indices: 2"], value: null}`. -/
theorem c6_unique_duplicates :
    (∀ (itemV : Validator) (cfg : ArrCfg) (base : BaseCfg) (ref : Nat)
        (elems : List JSVal) (path : String),
      cfg.uniqueItems = true →
      (∃ i j : Fin elems.length, j < i ∧
        jsonStringify (elems.get i) = jsonStringify (elems.get j)) →
      (validate (.array itemV cfg base) (.arr ref elems) path).isValid = false ∧
      ∃ pre post, (validate (.array itemV cfg base) (.arr ref elems) path).errors =
        pre ++
          formatError base
            ("Duplicate items found at indices: " ++
              String.intercalate ", " ((findDups [] 0 elems).map toString)) path :: post) ∧
    validate (.array Schema.string (ArrCfg.unique ⟨none, none, false⟩) Schema.freshBase)
      (.arr 0 [.str "a", .str "b", .str "a"]) "" =
      .failure ["Duplicate items found at indices: 2"] .null := by
  constructor
  · intro itemV cfg base ref elems path hu hex
    obtain ⟨i, j, hij, heq⟩ := hex
    have hd : findDups [] 0 elems ≠ [] := by
      intro h0
      have hp := findDups_nil_pairwise elems [] 0 h0
      rw [List.pairwise_iff_get] at hp
      exact hp j i hij heq.symm
    rw [← validate_eq_wrap,
      wrapValidate_not_null (Validator.array itemV cfg base).base (.arr ref elems) path _ rfl]
    simp only [validateInner]
    obtain ⟨pre, hpre⟩ := arrayCollect_duplicates cfg base ref elems path _ _ hu hd
    rw [hpre, applyTransform_of_failure _ _ _ rfl]
    exact ⟨rfl, pre, _, rfl⟩
  · rfl

/-- Witness for C6 at the spec's scenario 4: `["a","b","a"]` has the
serialisation of index 2 already seen at index 0. -/
theorem c6_unique_witness :
    (validate (.array Schema.string (ArrCfg.unique ⟨none, none, false⟩) Schema.freshBase)
      (.arr 0 [.str "a", .str "b", .str "a"]) "").isValid = false ∧
    ∃ pre post,
      (validate (.array Schema.string (ArrCfg.unique ⟨none, none, false⟩) Schema.freshBase)
        (.arr 0 [.str "a", .str "b", .str "a"]) "").errors =
        pre ++
          formatError Schema.freshBase
            ("Duplicate items found at indices: " ++
              String.intercalate ", "
                ((findDups [] 0 [.str "a", .str "b", .str "a"]).map toString)) "" :: post :=
  c6_unique_duplicates.1 Schema.string (ArrCfg.unique ⟨none, none, false⟩) Schema.freshBase
    0 [.str "a", .str "b", .str "a"] "" rfl
    ⟨⟨2, by decide⟩, ⟨0, by decide⟩, by decide, rfl⟩

/-!
## Custom messages replace every error (claim C10)
-/

theorem formatError_custom (base : BaseCfg) (m : String) (hm : base.customMessage = some m)
    (hne : m ≠ "") (message path : String) : formatError base message path = m := by
  unfold formatError
  rw [hm]
  simp [hne]

theorem stringValidate_errors_custom (cfg : StrCfg) (base : BaseCfg) (m : String)
    (hm : base.customMessage = some m) (hne : m ≠ "") (value : JSVal) (path : String) :
    ∀ e ∈ (stringValidate cfg base value path).errors, e = m := by
  have hfe : ∀ msg path', formatError base msg path' = m :=
    fun msg path' => formatError_custom base m hm hne msg path'
  intro e he
  cases value
  case str s =>
    obtain ⟨ml, mxl, pr, ev⟩ := cfg
    simp only [stringValidate] at he
    cases ml <;> cases mxl <;> cases pr <;> cases ev <;>
      simp only [collectResult] at he <;>
      (repeat' split at he) <;>
      simp_all [hfe, ValidationResult.failure, ValidationResult.success]
  all_goals
    (unfold stringValidate at he
     simp only [ValidationResult.failure, List.mem_singleton] at he
     exact he.trans (hfe _ _))

theorem wrapValidate_errors_custom (base : BaseCfg) (m : String)
    (hm : base.customMessage = some m) (hne : m ≠ "") (value : JSVal) (path : String)
    (r : ValidationResult) (hr : ∀ e ∈ r.errors, e = m) :
    ∀ e ∈ (wrapValidate base value path r).errors, e = m := by
  intro e he
  unfold wrapValidate at he
  split at he
  · split at he
    · simp [ValidationResult.success] at he
    · simp only [ValidationResult.failure, List.mem_singleton] at he
      exact he.trans (formatError_custom base m hm hne _ _)
  · unfold applyTransform at he
    split at he
    · split at he
      · split at he
        · exact hr e he
        · simp only [ValidationResult.failure, List.mem_singleton] at he
          exact he.trans (formatError_custom base m hm hne _ _)
      · exact hr e he
    · exact hr e he

/-- C10: after `email()` (resp. `url()`) on a String validator, the
validator's `customMessage` is set, so every error any subsequent `validate`
call produces — the type failure for non-string input, any constraint
failure, the required-field failure, a transform failure, at any path — is
exactly "Must be a valid email address" (resp. "Must be a valid URL"), with no
location suffix. -/
theorem c10_email_url_custom_message (cfg : StrCfg) (base : BaseCfg) (value : JSVal)
    (path : String) (e : String) :
    (e ∈ (validate (.string (StringValidator.email cfg base).1
        (StringValidator.email cfg base).2) value path).errors →
      e = "Must be a valid email address") ∧
    (e ∈ (validate (.string (StringValidator.url cfg base).1
        (StringValidator.url cfg base).2) value path).errors →
      e = "Must be a valid URL") := by
  constructor
  · intro he
    rw [← validate_eq_wrap] at he
    simp only [validateInner] at he
    exact wrapValidate_errors_custom _ _ rfl (by decide) value path _
      (stringValidate_errors_custom _ _ _ rfl (by decide) value path) e he
  · intro he
    rw [← validate_eq_wrap] at he
    simp only [validateInner] at he
    exact wrapValidate_errors_custom _ _ rfl (by decide) value path _
      (stringValidate_errors_custom _ _ _ rfl (by decide) value path) e he

/-- Witness for C10: the type failure of an email validator on the number `5`
at a nested path, and of a URL validator on `true`, are reported as the bare
custom messages. -/
theorem c10_custom_message_witness :
    ("Must be a valid email address" ∈
      (validate (.string (StringValidator.email ⟨none, none, none, none⟩ ⟨false, none, none⟩).1
        (StringValidator.email ⟨none, none, none, none⟩ ⟨false, none, none⟩).2)
        (.num (.fin 5)) "user.email").errors ∧
      "Must be a valid email address" = "Must be a valid email address") ∧
    ("Must be a valid URL" ∈
      (validate (.string (StringValidator.url ⟨none, none, none, none⟩ ⟨false, none, none⟩).1
        (StringValidator.url ⟨none, none, none, none⟩ ⟨false, none, none⟩).2)
        (.bool true) "site").errors ∧
      "Must be a valid URL" = "Must be a valid URL") :=
  ⟨⟨by decide,
    (c10_email_url_custom_message ⟨none, none, none, none⟩ ⟨false, none, none⟩
      (.num (.fin 5)) "user.email" "Must be a valid email address").1
      (by decide)⟩,
   ⟨by decide,
    (c10_email_url_custom_message ⟨none, none, none, none⟩ ⟨false, none, none⟩
      (.bool true) "site" "Must be a valid URL").2
      (by decide)⟩⟩

/-!
## Statelessness and idempotence of `validate` (claim C8)

Totality: the stateful execution relation can always produce the pure
`validate` result while leaving the receiver unchanged.  Determinism: it can
produce nothing else.  Together these say a `validate()` run never mutates
validator configuration and a repeated run returns an identical Result.
-/

theorem itemsR_total (itemV : Validator) (path : String)
    (H : ∀ (value : JSVal) (path' : String),
      VStep itemV value path' (validate itemV value path') itemV) :
    ∀ (elems : List JSVal) (idx : Nat),
      ItemsR itemV elems path idx
        (((elems.enumFrom idx).map fun p =>
          validate itemV p.2 (itemPath path p.1)).map
            (fun r => if r.isValid then [] else r.errors)).flatten
        (((elems.enumFrom idx).map fun p =>
          validate itemV p.2 (itemPath path p.1)).filterMap fun r =>
            if r.isValid then some r.value else none)
        itemV := by
  intro elems
  induction elems with
  | nil =>
    intro idx
    simp only [List.enumFrom, List.map_nil, List.flatten_nil, List.filterMap_nil]
    exact ItemsR.nil itemV path idx
  | cons e rest ih =>
    intro idx
    have hcons := ItemsR.cons itemV e rest path idx
      (validate itemV e (itemPath path idx)) itemV _ _ itemV
      (H e (itemPath path idx)) (ih (idx + 1))
    cases hr : (validate itemV e (itemPath path idx)).isValid <;>
      simpa [List.enumFrom, hr] using hcons

theorem fieldsR_total (fields : List (String × JSVal)) (path : String) :
    ∀ schema : List (String × Validator),
      (∀ kv ∈ schema, ∀ (value : JSVal) (path' : String),
        VStep kv.2 value path' (validate kv.2 value path') kv.2) →
      FieldsR schema fields path (validateFields schema fields path).1
        (validateFields schema fields path).2 schema := by
  intro schema
  induction schema with
  | nil =>
    intro _
    simp only [validateFields]
    exact FieldsR.nil fields path
  | cons kv rest ih =>
    intro H
    obtain ⟨key, fv⟩ := kv
    have hstep := H ⟨key, fv⟩ (by simp) (jsIndex fields key) (fieldPath path key)
    have hcons := FieldsR.cons key fv rest fields path
      (validate fv (jsIndex fields key) (fieldPath path key)) fv _ _ rest hstep
      (ih fun kv hkv => H kv (by simp [hkv]))
    simpa [validateFields, validate_eq_wrap] using hcons

theorem candsR_total (value : JSVal) (path : String) :
    ∀ validators : List Validator,
      (∀ c ∈ validators, ∀ (value' : JSVal) (path' : String),
        VStep c value' path' (validate c value' path') c) →
      CandsR validators value path (validateCands validators value path).1
        (validateCands validators value path).2 validators := by
  intro validators
  induction validators with
  | nil =>
    intro _
    simp only [validateCands]
    exact CandsR.nil value path
  | cons c cs ih =>
    intro H
    have hstep := H c (by simp) value path
    cases hr : (validate c value path).isValid
    · have hcons := CandsR.consFail c cs value path (validate c value path) c _ _ cs
        hstep hr (ih fun c' hc' => H c' (by simp [hc']))
      simpa [validateCands, validate_eq_wrap, hr] using hcons
    · have hcons := CandsR.consOk c cs value path (validate c value path) c hstep hr
      simpa [validateCands, validate_eq_wrap, hr] using hcons

theorem vinner_total (v : Validator) (value : JSVal) (path : String)
    (H : ∀ c, sizeOf c < sizeOf v → ∀ (value' : JSVal) (path' : String),
      VStep c value' path' (validate c value' path') c) :
    VInner v value path (validateInner v value path) v := by
  cases v with
  | string cfg base => exact VInner.str cfg base value path
  | number cfg base => exact VInner.num cfg base value path
  | boolean base => exact VInner.bool base value path
  | date cfg base => exact VInner.date cfg base value path
  | literal expected base => exact VInner.lit expected base value path
  | any base => exact VInner.anyV base value path
  | array itemV cfg base =>
    have hsz : sizeOf itemV < sizeOf (Validator.array itemV cfg base) := by
      simp only [Validator.array.sizeOf_spec]
      omega
    cases value with
    | arr ref elems =>
      have hitems := itemsR_total itemV path (fun value' path' => H itemV hsz value' path')
        elems 0
      have harr := VInner.arr itemV cfg base ref elems path _ _ itemV hitems
      simpa [validateInner, validate_eq_wrap, List.enum] using harr
    | null => exact VInner.arrMismatch itemV cfg base _ path (fun _ _ h => nomatch h)
    | undefined => exact VInner.arrMismatch itemV cfg base _ path (fun _ _ h => nomatch h)
    | bool b => exact VInner.arrMismatch itemV cfg base _ path (fun _ _ h => nomatch h)
    | num n => exact VInner.arrMismatch itemV cfg base _ path (fun _ _ h => nomatch h)
    | str s => exact VInner.arrMismatch itemV cfg base _ path (fun _ _ h => nomatch h)
    | obj ref fields => exact VInner.arrMismatch itemV cfg base _ path (fun _ _ h => nomatch h)
  | object schema cfg base =>
    have hsz : ∀ kv ∈ schema, sizeOf (kv : String × Validator).2 <
        sizeOf (Validator.object schema cfg base) := by
      intro kv hkv
      have h1 := List.sizeOf_lt_of_mem hkv
      obtain ⟨k, c⟩ := kv
      simp only [Validator.object.sizeOf_spec, Prod.mk.sizeOf_spec] at *
      omega
    cases value with
    | obj ref fields =>
      have hfields := fieldsR_total fields path schema
        (fun kv hkv value' path' => H kv.2 (hsz kv hkv) value' path')
      have hobj := VInner.objFields schema cfg base ref fields path _ _ schema hfields
      simpa [validateInner] using hobj
    | null => exact VInner.objMismatch schema cfg base _ path (fun _ _ h => nomatch h)
    | undefined => exact VInner.objMismatch schema cfg base _ path (fun _ _ h => nomatch h)
    | bool b => exact VInner.objMismatch schema cfg base _ path (fun _ _ h => nomatch h)
    | num n => exact VInner.objMismatch schema cfg base _ path (fun _ _ h => nomatch h)
    | str s => exact VInner.objMismatch schema cfg base _ path (fun _ _ h => nomatch h)
    | arr ref elems => exact VInner.objMismatch schema cfg base _ path (fun _ _ h => nomatch h)
  | union validators base =>
    have hsz : ∀ c ∈ validators, sizeOf c < sizeOf (Validator.union validators base) := by
      intro c hc
      have := List.sizeOf_lt_of_mem hc
      simp only [Validator.union.sizeOf_spec]
      omega
    have hcands := candsR_total value path validators
      (fun c hc value' path' => H c (hsz c hc) value' path')
    have huni := VInner.unionCase validators base value path _ _ validators hcands
    simpa [validateInner] using huni

theorem vstep_total : ∀ (n : Nat) (v : Validator), sizeOf v ≤ n →
    ∀ (value : JSVal) (path : String), VStep v value path (validate v value path) v := by
  intro n
  induction n with
  | zero =>
    intro v h
    exact absurd h (by cases v <;> simp_arith)
  | succ n ih =>
    intro v h value path
    cases hnn : isNullOrUndefined value
    · have hv : validate v value path =
          applyTransform v.base (validateInner v value path) path := by
        rw [← validate_eq_wrap, wrapValidate_not_null _ _ _ _ hnn]
      rw [hv]
      exact VStep.run v value path (validateInner v value path) v hnn
        (vinner_total v value path (fun c hc value' path' => ih c (by omega) value' path'))
    · cases hopt : v.base.isOptionalField
      · have hv : validate v value path =
            .failure [formatError v.base "Field is required" path] .null := by
          rw [← validate_eq_wrap]
          unfold wrapValidate
          rw [hnn, hopt]
          simp
        rw [hv]
        exact VStep.nullRequired v value path hnn hopt
      · have hv : validate v value path = .success value := by
          rw [← validate_eq_wrap]
          unfold wrapValidate
          rw [hnn, hopt]
          simp
        rw [hv]
        exact VStep.nullOptional v value path hnn hopt

theorem itemsR_det (itemV : Validator) (path : String)
    (H : ∀ (value : JSVal) (path' : String) (r : ValidationResult) (w : Validator),
      VStep itemV value path' r w → r = validate itemV value path' ∧ w = itemV) :
    ∀ (elems : List JSVal) (idx : Nat) (errs : List String) (vals : List JSVal)
      (itemW : Validator),
      ItemsR itemV elems path idx errs vals itemW →
      errs = (((elems.enumFrom idx).map fun p =>
          validate itemV p.2 (itemPath path p.1)).map
            (fun r => if r.isValid then [] else r.errors)).flatten ∧
      vals = (((elems.enumFrom idx).map fun p =>
          validate itemV p.2 (itemPath path p.1)).filterMap fun r =>
            if r.isValid then some r.value else none) ∧
      itemW = itemV := by
  intro elems
  induction elems with
  | nil =>
    intro idx errs vals itemW h
    cases h
    simp [List.enumFrom]
  | cons e rest ih =>
    intro idx errs vals itemW h
    cases h
    rename_i r itemV' errs' vals' hstep hrest
    obtain ⟨hr, hw⟩ := H e (itemPath path idx) r itemV' hstep
    subst hr
    rw [hw] at hrest
    obtain ⟨h1, h2, h3⟩ := ih (idx + 1) errs' vals' itemW hrest
    subst h1
    subst h2
    refine ⟨?_, ?_, h3⟩ <;>
      cases hv : (validate itemV e (itemPath path idx)).isValid <;>
        simp [List.enumFrom, hv]

theorem fieldsR_det (fields : List (String × JSVal)) (path : String) :
    ∀ schema : List (String × Validator),
      (∀ kv ∈ schema, ∀ (value : JSVal) (path' : String) (r : ValidationResult) (w : Validator),
        VStep (kv : String × Validator).2 value path' r w →
          r = validate kv.2 value path' ∧ w = kv.2) →
      ∀ errs out schema', FieldsR schema fields path errs out schema' →
        errs = (validateFields schema fields path).1 ∧
        out = (validateFields schema fields path).2 ∧ schema' = schema := by
  intro schema
  induction schema with
  | nil =>
    intro _ errs out schema' h
    cases h
    simp [validateFields]
  | cons kv rest ih =>
    obtain ⟨key, fv⟩ := kv
    intro H errs out schema' h
    cases h
    rename_i r fv' errs' out' rest' hstep hrest
    obtain ⟨hr, hw⟩ := H ⟨key, fv⟩ (by simp) _ _ r fv' hstep
    subst hr
    obtain ⟨h1, h2, h3⟩ := ih (fun kv hkv => H kv (by simp [hkv])) errs' out' rest' hrest
    subst h1
    subst h2
    refine ⟨?_, ?_, ?_⟩
    · cases hv : (validate fv (jsIndex fields key) (fieldPath path key)).isValid <;>
        simp [validateFields, validate_eq_wrap, hv]
    · cases hv : (validate fv (jsIndex fields key) (fieldPath path key)).isValid <;>
        simp [validateFields, validate_eq_wrap, hv]
    · rw [hw, h3]

theorem candsR_det (value : JSVal) (path : String) :
    ∀ validators : List Validator,
      (∀ c ∈ validators, ∀ (value' : JSVal) (path' : String) (r : ValidationResult)
        (w : Validator), VStep c value' path' r w → r = validate c value' path' ∧ w = c) →
      ∀ res errs validators', CandsR validators value path res errs validators' →
        res = (validateCands validators value path).1 ∧
        errs = (validateCands validators value path).2 ∧ validators' = validators := by
  intro validators
  induction validators with
  | nil =>
    intro _ res errs validators' h
    cases h
    simp [validateCands]
  | cons c cs ih =>
    intro H res errs validators' h
    cases h with
    | consOk =>
      rename_i r c' hvalid hstep
      obtain ⟨hr, hw⟩ := H c (by simp) _ _ r c' hstep
      subst hr
      refine ⟨?_, ?_, ?_⟩
      · simp [validateCands, validate_eq_wrap, hvalid]
      · simp [validateCands, validate_eq_wrap, hvalid]
      · rw [hw]
    | consFail =>
      rename_i r c' errs' cs' hinvalid hstep hrest
      obtain ⟨hr, hw⟩ := H c (by simp) _ _ r c' hstep
      subst hr
      obtain ⟨h1, h2, h3⟩ := ih (fun c'' hc'' => H c'' (by simp [hc''])) res errs' cs' hrest
      subst h1
      subst h2
      refine ⟨?_, ?_, ?_⟩
      · simp [validateCands, validate_eq_wrap, hinvalid]
      · simp [validateCands, validate_eq_wrap, hinvalid]
      · rw [hw, h3]

theorem vinner_det (v : Validator) (value : JSVal) (path : String)
    (H : ∀ c, sizeOf c < sizeOf v → ∀ (value' : JSVal) (path' : String)
      (r : ValidationResult) (w : Validator),
      VStep c value' path' r w → r = validate c value' path' ∧ w = c) :
    ∀ r' v', VInner v value path r' v' → r' = validateInner v value path ∧ v' = v := by
  intro r' v' h
  cases h with
  | str cfg base => exact ⟨by simp [validateInner], rfl⟩
  | num cfg base => exact ⟨by simp [validateInner], rfl⟩
  | bool base => exact ⟨by simp [validateInner], rfl⟩
  | date cfg base => exact ⟨by simp [validateInner], rfl⟩
  | lit expected base => exact ⟨by simp [validateInner], rfl⟩
  | anyV base => exact ⟨by simp [validateInner], rfl⟩
  | arr =>
    rename_i itemV cfg base ref elems errs vals itemV' hitems
    have hsz : sizeOf itemV < sizeOf (Validator.array itemV cfg base) := by
      simp only [Validator.array.sizeOf_spec]
      omega
    obtain ⟨h1, h2, h3⟩ := itemsR_det itemV path
      (fun value' path' r w hs => H itemV hsz value' path' r w hs) elems 0 errs vals itemV'
      hitems
    subst h1
    subst h2
    refine ⟨?_, by rw [h3]⟩
    simp [validateInner, validate_eq_wrap, List.enum]
  | arrMismatch =>
    rename_i itemV cfg base hside
    refine ⟨?_, rfl⟩
    cases value with
    | arr ref elems => exact absurd rfl (hside ref elems)
    | null => simp [validateInner]
    | undefined => simp [validateInner]
    | bool b => simp [validateInner]
    | num n => simp [validateInner]
    | str s => simp [validateInner]
    | obj ref fields => simp [validateInner]
  | objFields =>
    rename_i schema cfg base ref fields errs out schema' hfields
    have hsz : ∀ kv ∈ schema, sizeOf (kv : String × Validator).2 <
        sizeOf (Validator.object schema cfg base) := by
      intro kv hkv
      have h1 := List.sizeOf_lt_of_mem hkv
      obtain ⟨k, c⟩ := kv
      simp only [Validator.object.sizeOf_spec, Prod.mk.sizeOf_spec] at *
      omega
    obtain ⟨h1, h2, h3⟩ := fieldsR_det fields path schema
      (fun kv hkv value' path' r w hs => H kv.2 (hsz kv hkv) value' path' r w hs)
      errs out schema' hfields
    subst h1
    subst h2
    subst h3
    exact ⟨by simp [validateInner], rfl⟩
  | objMismatch =>
    rename_i schema cfg base hside
    refine ⟨?_, rfl⟩
    cases value with
    | obj ref fields => exact absurd rfl (hside ref fields)
    | null => simp [validateInner]
    | undefined => simp [validateInner]
    | bool b => simp [validateInner]
    | num n => simp [validateInner]
    | str s => simp [validateInner]
    | arr ref elems => simp [validateInner]
  | unionCase =>
    rename_i validators base res errs validators' hcands
    have hsz : ∀ c ∈ validators, sizeOf c < sizeOf (Validator.union validators base) := by
      intro c hc
      have := List.sizeOf_lt_of_mem hc
      simp only [Validator.union.sizeOf_spec]
      omega
    obtain ⟨h1, h2, h3⟩ := candsR_det value path validators
      (fun c hc value' path' r w hs => H c (hsz c hc) value' path' r w hs)
      res errs validators' hcands
    subst h1
    subst h2
    subst h3
    exact ⟨by simp [validateInner], rfl⟩

theorem vstep_det : ∀ (n : Nat) (v : Validator), sizeOf v ≤ n →
    ∀ (value : JSVal) (path : String) (r' : ValidationResult) (v' : Validator),
      VStep v value path r' v' → r' = validate v value path ∧ v' = v := by
  intro n
  induction n with
  | zero =>
    intro v h
    exact absurd h (by cases v <;> simp_arith)
  | succ n ih =>
    intro v h value path r' v' hstep
    cases hstep with
    | nullOptional =>
      rename_i hopt hnn
      refine ⟨?_, rfl⟩
      rw [← validate_eq_wrap]
      unfold wrapValidate
      rw [hnn, hopt]
      simp
    | nullRequired =>
      rename_i hopt hnn
      refine ⟨?_, rfl⟩
      rw [← validate_eq_wrap]
      unfold wrapValidate
      rw [hnn, hopt]
      simp
    | run =>
      rename_i r hnn hinner
      obtain ⟨h1, h2⟩ := vinner_det v value path
        (fun c hc value' path' r'' w' hs => ih c (by omega) value' path' r'' w' hs)
        r v' hinner
      subst h1
      subst h2
      refine ⟨?_, rfl⟩
      rw [← validate_eq_wrap, wrapValidate_not_null _ _ _ _ hnn]

/-- C8: a `validate()` call carries no hidden state: the stateful execution
relation (which threads the receiver's configuration through every child call
exactly as the JavaScript heap would) can produce the pure `validate` Result
with the validator left unchanged, and can produce nothing else — so `validate`
never mutates the validator's configuration fields, and re-running it on the
same input with the same unmodified validator yields an identical Result. -/
theorem c8_validate_stateless_and_idempotent (v : Validator) (value : JSVal) (path : String) :
    VStep v value path (validate v value path) v ∧
    (∀ r' v', VStep v value path r' v' →
      r' = validate v value path ∧ v' = v) :=
  ⟨vstep_total (sizeOf v) v le_rfl value path,
   fun r' v' h => vstep_det (sizeOf v) v le_rfl value path r' v' h⟩

/-- Witness for C8: an explicitly constructed run of `Schema.boolean()` on
`true` is forced to return the pure `validate` result and leave the validator
untouched. -/
theorem c8_stateless_witness :
    applyTransform Schema.freshBase (booleanValidate Schema.freshBase (.bool true) "") "" =
      validate Schema.boolean (.bool true) "" ∧
    Validator.boolean Schema.freshBase = Schema.boolean :=
  (c8_validate_stateless_and_idempotent Schema.boolean (.bool true) "").2
    (applyTransform Schema.freshBase (booleanValidate Schema.freshBase (.bool true) "") "")
    (Validator.boolean Schema.freshBase)
    (VStep.run Schema.boolean (.bool true) "" (booleanValidate Schema.freshBase (.bool true) "")
      (Validator.boolean Schema.freshBase) rfl (VInner.bool Schema.freshBase (.bool true) ""))
